import Mathlib

/-!
# go-webhook-inspector: the bounded event log and its HTTP handlers

A shallow embedding of `main.go`.

* A Go `string` is a sequence of bytes: `GoString := List UInt8`.
* A Go `int` is the 64-bit two's-complement integer of the usual targets: values are
  `Int`s and the one operation that can leave the range, `s.nextID++`, goes through
  `wrapInt`.
* The slice `s.events` is a `List Event`; `s.events[low:]` is `List.drop`, and it
  panics unless `0 ≤ low ≤ len(s.events)`.
* The mutex is not modelled: every definition is the sequential body that runs while
  the lock is held.
* `time.Time` is an abstract instant (`Time := Nat`); `time.Now()` is a parameter of
  the handler that calls it.
-/

namespace WebhookInspector

/-! ## Data model -/

/-- A Go string: a finite sequence of bytes. -/
abbrev GoString := List UInt8

/-- The bytes of an ASCII literal of the source. -/
def ascii (s : String) : GoString := s.toList.map (fun c => c.toNat.toUInt8)

/-- An instant, as produced by `time.Now()`. -/
abbrev Time := Nat

/-- Largest value of Go's `int` (64 bit). -/
def maxInt : Int := 2 ^ 63 - 1

/-- Smallest value of Go's `int` (64 bit). -/
def minInt : Int := -(2 ^ 63)

/-- Two's-complement wrap-around of an integer result into the range of `int`. -/
def wrapInt (x : Int) : Int := (x + 2 ^ 63) % 2 ^ 64 - 2 ^ 63

/-- The `Event` struct of `main.go`; `Headers` is the `map[string]string`, held as its
list of entries. -/
structure Event where
  ID : Int
  Method : GoString
  Path : GoString
  Headers : List (GoString × GoString)
  Body : GoString
  RemoteIP : GoString
  CreatedAt : Time
  deriving DecidableEq, Repr

/-- The `Store` struct of `main.go`, without its mutex. -/
structure Store where
  events : List Event
  nextID : Int
  maxLen : Int
  deriving DecidableEq, Repr

/-! ## The store -/

/-- `NewStore(maxLen)`. -/
def NewStore (maxLen : Int) : Store :=
  { events := [], nextID := 1, maxLen := maxLen }

/-- `(*Store).Add`. The first component is the store when the call is over, the second
the returned event, or `none` when the slice expression `s.events[len(s.events)-s.maxLen:]`
panics. The panic happens after `nextID` was incremented and the event appended, and
before the assignment to `s.events`, so the store keeps the appended sequence.

The subtraction `len(s.events) - s.maxLen` is taken in `Int`: it is only evaluated when
`len(s.events) > s.maxLen`; for `s.maxLen ≥ 0` it cannot overflow, and for `s.maxLen < 0`
the exact value exceeds `len(s.events)` while a wrapped one is negative, which panics
either way. -/
def Add (s : Store) (e : Event) : Store × Option Event :=
  let e1 : Event := { e with ID := s.nextID }
  let next : Int := wrapInt (s.nextID + 1)
  let evs : List Event := s.events ++ [e1]
  if (evs.length : Int) > s.maxLen then
    let low : Int := (evs.length : Int) - s.maxLen
    if 0 ≤ low ∧ low ≤ (evs.length : Int) then
      ({ events := evs.drop low.toNat, nextID := next, maxLen := s.maxLen }, some e1)
    else
      ({ events := evs, nextID := next, maxLen := s.maxLen }, none)
  else
    ({ events := evs, nextID := next, maxLen := s.maxLen }, some e1)

/-- `(*Store).All`: a copy of the retained events. -/
def All (s : Store) : List Event := s.events

/-- The loop of `(*Store).GetByID` over a sequence of events: the first event whose
`ID` is `id`. -/
def scanByID (id : Int) : List Event → Option Event
  | [] => none
  | ev :: rest => if ev.ID = id then some ev else scanByID id rest

/-- `(*Store).GetByID`: `some ev` for `(&evCopy, true)`, `none` for `(nil, false)`. -/
def GetByID (s : Store) (id : Int) : Option Event := scanByID id s.events

/-- A sequence of `Add` calls, one per draft, in order: the final store and what each
call returned. A call that panics leaves the store as described at `Add`, and the next
call runs on it (the HTTP server recovers a handler's panic). -/
def addMany (s : Store) : List Event → Store × List (Option Event)
  | [] => (s, [])
  | d :: ds =>
    let r := Add s d
    let rs := addMany r.1 ds
    (rs.1, r.2 :: rs.2)

/-- The store after a sequence of `Add` calls. -/
def storeAfter (s : Store) (ds : List Event) : Store := (addMany s ds).1

/-- What the calls of a sequence of `Add` calls returned, in order. -/
def returnsOf (s : Store) (ds : List Event) : List (Option Event) := (addMany s ds).2

/-- The draft `d` finalised with identifier `i`. -/
def withID (d : Event) (i : Int) : Event := { d with ID := i }

/-- The drafts `ds` finalised with the consecutive identifiers `first, first + 1, ...`. -/
def stamp (first : Int) : List Event → List Event
  | [] => []
  | d :: ds => withID d first :: stamp (first + 1) ds

/-- The last `m` elements of a sequence (all of it when it has at most `m`). -/
def keepLast {α : Type} (m : Nat) (l : List α) : List α := l.drop (l.length - m)

/-! ## Library functions used by the handlers

These are functions of Go's standard library, modelled after their documentation. -/

/-- `strings.TrimPrefix(s, prefix)`: `s` without the leading `prefix`, or `s` itself when
it does not start with `prefix`. -/
def TrimPrefix (s pre : GoString) : GoString :=
  if pre <+: s then s.drop pre.length else s

/-- `strings.Split(s, sep)` for a separator of one byte (the handler passes `"/"`): the
pieces of `s` between the occurrences of `sep`; never an empty list. -/
def Split (s : GoString) (sep : UInt8) : List GoString :=
  match s with
  | [] => [[]]
  | c :: cs =>
    if c = sep then [] :: Split cs sep
    else
      match Split cs sep with
      | [] => [[c]]
      | p :: ps => (c :: p) :: ps

/-- `strings.Join(elems, sep)`. -/
def Join (elems : List GoString) (sep : GoString) : GoString :=
  match elems with
  | [] => []
  | [a] => a
  | a :: b :: rest => a ++ sep ++ Join (b :: rest) sep

/-- The value of a sequence of decimal digits continuing the value `acc`; `none` when a
byte is not one of `'0'..'9'`. -/
def digitsValue (acc : Nat) : GoString → Option Nat
  | [] => some acc
  | c :: cs =>
    if 48 ≤ c.toNat ∧ c.toNat ≤ 57 then digitsValue (acc * 10 + (c.toNat - 48)) cs
    else none

/-- `strconv.Atoi(s)`: `some n` when `err == nil`, `none` when it returns an error. The
accepted strings are an optional sign `+` or `-` followed by at least one decimal digit
(base 10, no underscores), whose value lies in the range of `int`; anything else is a
syntax error or a range error. -/
def Atoi (s : GoString) : Option Int :=
  let signed : Bool × GoString :=
    match s with
    | c :: r => if c = 45 then (true, r) else if c = 43 then (false, r) else (false, s)
    | [] => (false, [])
  if signed.2 = [] then none
  else
    match digitsValue 0 signed.2 with
    | none => none
    | some n =>
      let v : Int := if signed.1 then -(n : Int) else (n : Int)
      if minInt ≤ v ∧ v ≤ maxInt then some v else none

/-- A non-empty sequence of the bytes `'0'..'9'`. -/
def isDecimal (s : GoString) : Prop := s ≠ [] ∧ ∀ c ∈ s, 48 ≤ c.toNat ∧ c.toNat ≤ 57

/-- The number that a sequence of decimal digits writes. -/
def decimalValue (s : GoString) : Nat := s.foldl (fun acc c => acc * 10 + (c.toNat - 48)) 0

/-! ## The HTTP handlers -/

/-- What a handler reads of `*http.Request`. `Body` is the outcome of
`io.ReadAll(r.Body)`: the bytes read, or `none` when it returns an error. -/
structure Request where
  Method : GoString
  Path : GoString
  Header : List (GoString × List GoString)
  Body : Option GoString
  RemoteAddr : GoString
  deriving DecidableEq, Repr

/-- What a handler writes: the text of an `http.Error`, or the value handed to the JSON
encoder. -/
inductive Payload where
  | text (msg : String)
  | event (ev : Event)
  | events (evs : List Event)
  deriving DecidableEq, Repr

/-- A response: status code and payload. -/
structure Response where
  status : Nat
  body : Payload
  deriving DecidableEq, Repr

/-- The draft that `hookHandler` builds from a request whose body was read as
`bodyBytes`, `now` being the value of `time.Now()`. -/
def draftOf (r : Request) (bodyBytes : GoString) (now : Time) : Event :=
  { ID := 0
    Method := r.Method
    Path := r.Path
    Headers := r.Header.map (fun kv => (kv.1, Join kv.2 (ascii ", ")))
    Body := bodyBytes
    RemoteIP := r.RemoteAddr
    CreatedAt := now }

/-- `hookHandler`: the store afterwards and the response, `none` when `store.Add`
panicked and nothing was written. -/
def hookHandler (store : Store) (r : Request) (now : Time) : Store × Option Response :=
  if r.Method ≠ ascii "POST" ∧ r.Method ≠ ascii "PUT" ∧ r.Method ≠ ascii "PATCH" then
    (store, some { status := 405, body := .text "Use POST/PUT/PATCH para enviar eventos" })
  else
    match r.Body with
    | none => (store, some { status := 400, body := .text "erro ao ler body" })
    | some bodyBytes =>
      let res := Add store (draftOf r bodyBytes now)
      match res.2 with
      | some ev => (res.1, some { status := 201, body := .event ev })
      | none => (res.1, none)

/-- `eventsHandler`. -/
def eventsHandler (store : Store) (r : Request) : Response :=
  if r.Method ≠ ascii "GET" then { status := 405, body := .text "Use GET" }
  else { status := 200, body := .events (All store) }

/-- `eventByIDHandler`. -/
def eventByIDHandler (store : Store) (r : Request) : Response :=
  if r.Method ≠ ascii "GET" then { status := 405, body := .text "Use GET" }
  else
    match Split (TrimPrefix r.Path (ascii "/events/")) 47 with
    | [] => { status := 400, body := .text "ID não informado" }
    | p0 :: _ =>
      if p0 = [] then { status := 400, body := .text "ID não informado" }
      else
        match Atoi p0 with
        | none => { status := 400, body := .text "ID inválido" }
        | some id =>
          match GetByID store id with
          | none => { status := 404, body := .text "Evento não encontrado" }
          | some ev => { status := 200, body := .event ev }

/-- The methods that `hookHandler` lets through: `POST`, `PUT` and `PATCH`. -/
def allowedMethod (m : GoString) : Prop :=
  m = ascii "POST" ∨ m = ascii "PUT" ∨ m = ascii "PATCH"

instance allowedMethodDecidable (m : GoString) : Decidable (allowedMethod m) := by
  unfold allowedMethod
  infer_instance

/-- The first `/`-separated segment of what follows `/events/` in a path. -/
def idSegment (path : GoString) : GoString :=
  (TrimPrefix path (ascii "/events/")).takeWhile (fun c => c ≠ 47)

/-! ## Sample values -/

/-- A draft with the given method and body. -/
def draft (m b : String) (t : Time) : Event :=
  { ID := 0, Method := ascii m, Path := ascii "/hook", Headers := [], Body := ascii b,
    RemoteIP := ascii "127.0.0.1:5000", CreatedAt := t }

/-- The five drafts A, B, C, D, E of the capacity-3 scenario. -/
def draftsAE : List Event :=
  [draft "POST" "A" 0, draft "POST" "B" 0, draft "POST" "C" 0, draft "POST" "D" 0,
   draft "POST" "E" 0]

/-- A `GET` request for a path. -/
def getRequest (path : String) : Request :=
  { Method := ascii "GET", Path := ascii path, Header := [], Body := some [],
    RemoteAddr := ascii "127.0.0.1:5000" }

/-- The body of the `curl` example of the usage message. -/
def curlBody : GoString := ascii "\x7b\"foo\":\"bar\"\x7d"

/-- The `curl` request of the usage message: a JSON `POST` to `/hook`. -/
def curlRequest : Request :=
  { Method := ascii "POST", Path := ascii "/hook",
    Header := [(ascii "Content-Type", [ascii "application/json"])],
    Body := some curlBody,
    RemoteAddr := ascii "127.0.0.1:5000" }

/-- The draft that `hookHandler` builds for the `curl` request at instant 0. -/
def curlDraft : Event := draftOf curlRequest curlBody 0

/-! ## The scenarios of the specification, evaluated -/

theorem scenario_capacity_hundred :
    (GetByID (Add (NewStore 100) curlDraft).1 1).map
        (fun ev => (ev.Method, ev.Body, ev.Headers)) =
      some (ascii "POST", curlBody, [(ascii "Content-Type", ascii "application/json")]) := by
  decide


theorem scenario_capacity_three :
    (All (storeAfter (NewStore 3) draftsAE)).map (fun e => (e.ID, e.Body)) =
      [(3, ascii "C"), (4, ascii "D"), (5, ascii "E")] := by decide

theorem scenario_empty_log :
    GetByID (NewStore 100) 1 = none ∧ All (NewStore 100) = [] := by decide

theorem scenario_atoi :
    Atoi (ascii "42") = some 42 ∧ Atoi (ascii "-7") = some (-7) ∧ Atoi (ascii "+0") = some 0 ∧
    Atoi (ascii "") = none ∧ Atoi (ascii "-") = none ∧ Atoi (ascii "1_0") = none ∧
    Atoi (ascii "12a") = none ∧ Atoi (ascii " 1") = none ∧
    Atoi (ascii "9223372036854775807") = some maxInt ∧
    Atoi (ascii "9223372036854775808") = none ∧
    Atoi (ascii "-9223372036854775808") = some minInt := by decide

theorem scenario_split :
    Split (ascii "1/x") 47 = [ascii "1", ascii "x"] ∧ Split (ascii "") 47 = [[]] ∧
    Split (ascii "12/") 47 = [ascii "12", []] ∧
    TrimPrefix (ascii "/events/12") (ascii "/events/") = ascii "12" ∧
    TrimPrefix (ascii "12") (ascii "/events/") = ascii "12" ∧
    Join [ascii "a", ascii "b"] (ascii ", ") = ascii "a, b" := by decide

/-! ## Lemmas on the store -/

theorem wrapInt_of_range (x : Int) (h1 : minInt ≤ x) (h2 : x ≤ maxInt) : wrapInt x = x := by
  unfold wrapInt
  unfold minInt at h1
  unfold maxInt at h2
  rw [Int.emod_eq_of_lt (by omega) (by omega)]
  omega

theorem keepLast_length {α : Type} (m : Nat) (l : List α) :
    (keepLast m l).length = min l.length m := by
  unfold keepLast
  rw [List.length_drop]
  omega

theorem keepLast_of_le {α : Type} (m : Nat) (l : List α) (h : l.length ≤ m) :
    keepLast m l = l := by
  unfold keepLast
  rw [Nat.sub_eq_zero_of_le h, List.drop_zero]

theorem keepLast_append {α : Type} (m : Nat) (l r : List α) :
    keepLast m (keepLast m l ++ r) = keepLast m (l ++ r) := by
  by_cases h : l.length ≤ m
  · rw [keepLast_of_le m l h]
  · unfold keepLast
    have hk : (List.drop (l.length - m) l).length = m := by
      rw [List.length_drop]; omega
    rw [List.length_append, List.length_append, hk]
    have e1 : m + r.length - m = r.length := by omega
    have e2 : l.length + r.length - m = (l.length - m) + r.length := by omega
    rw [e1, e2, ← List.drop_drop, List.drop_append_of_le_length (Nat.sub_le _ _)]

theorem Add_of_nonneg (s : Store) (e : Event) (h : 0 ≤ s.maxLen) :
    Add s e =
      ({ events := keepLast s.maxLen.toNat (s.events ++ [withID e s.nextID]),
         nextID := wrapInt (s.nextID + 1), maxLen := s.maxLen },
       some (withID e s.nextID)) := by
  unfold Add keepLast withID
  simp only [List.length_append, List.length_singleton]
  split_ifs with h1 h2
  · congr 3
    omega
  · exfalso
    apply h2
    constructor <;> push_cast <;> omega
  · have : s.events.length + 1 - s.maxLen.toNat = 0 := by
      push_cast at h1
      omega
    rw [this, List.drop_zero]

theorem Add_nextID (s : Store) (e : Event) : (Add s e).1.nextID = wrapInt (s.nextID + 1) := by
  unfold Add
  simp only
  split_ifs <;> rfl

theorem Add_maxLen (s : Store) (e : Event) : (Add s e).1.maxLen = s.maxLen := by
  unfold Add
  simp only
  split_ifs <;> rfl

theorem storeAfter_nil (s : Store) : storeAfter s [] = s := rfl

theorem storeAfter_cons (s : Store) (d : Event) (ds : List Event) :
    storeAfter s (d :: ds) = storeAfter (Add s d).1 ds := rfl

theorem returnsOf_nil (s : Store) : returnsOf s [] = [] := rfl

theorem returnsOf_cons (s : Store) (d : Event) (ds : List Event) :
    returnsOf s (d :: ds) = (Add s d).2 :: returnsOf (Add s d).1 ds := rfl

theorem storeAfter_append (s : Store) (ds es : List Event) :
    storeAfter s (ds ++ es) = storeAfter (storeAfter s ds) es := by
  induction ds generalizing s with
  | nil => rfl
  | cons d ds ih => rw [List.cons_append, storeAfter_cons, storeAfter_cons, ih]

theorem storeAfter_maxLen (s : Store) (ds : List Event) :
    (storeAfter s ds).maxLen = s.maxLen := by
  induction ds generalizing s with
  | nil => rfl
  | cons d ds ih => rw [storeAfter_cons, ih, Add_maxLen]

theorem storeAfter_nextID (s : Store) (ds : List Event) (hlo : minInt ≤ s.nextID)
    (hb : s.nextID + ds.length ≤ maxInt) :
    (storeAfter s ds).nextID = s.nextID + ds.length := by
  induction ds generalizing s with
  | nil => simp [storeAfter_nil]
  | cons d ds ih =>
    rw [List.length_cons] at hb
    push_cast at hb
    have hw : (Add s d).1.nextID = s.nextID + 1 := by
      rw [Add_nextID, wrapInt_of_range _ (by omega) (by omega)]
    rw [storeAfter_cons, ih _ (by rw [hw]; omega) (by rw [hw]; omega), hw, List.length_cons]
    push_cast
    omega

theorem stamp_length (f : Int) (l : List Event) : (stamp f l).length = l.length := by
  induction l generalizing f with
  | nil => rfl
  | cons d l ih => simp [stamp, ih]

theorem stamp_append (f : Int) (l r : List Event) :
    stamp f (l ++ r) = stamp f l ++ stamp (f + l.length) r := by
  induction l generalizing f with
  | nil => simp [stamp]
  | cons d l ih =>
    have e : f + 1 + (l.length : Int) = f + ((l.length + 1 : Nat) : Int) := by
      push_cast; omega
    show withID d f :: stamp (f + 1) (l ++ r) =
      withID d f :: (stamp (f + 1) l ++ stamp (f + ((l.length + 1 : Nat) : Int)) r)
    rw [ih, e]

theorem stamp_drop (f : Int) (l : List Event) (j : Nat) :
    (stamp f l).drop j = stamp (f + j) (l.drop j) := by
  induction j generalizing f l with
  | zero => simp
  | succ j ih =>
    cases l with
    | nil => simp [stamp]
    | cons d l =>
      simp only [stamp, List.drop_succ_cons, ih]
      push_cast
      rw [show f + 1 + (j : Int) = f + ((j : Int) + 1) by omega]

theorem stamp_getElem? (f : Int) (l : List Event) (k : Nat) :
    (stamp f l)[k]? = (l[k]?).map (fun d => withID d (f + k)) := by
  induction l generalizing f k with
  | nil => simp [stamp]
  | cons d l ih =>
    cases k with
    | zero => simp [stamp]
    | succ k =>
      simp only [stamp, List.getElem?_cons_succ, ih]
      push_cast
      rw [show f + 1 + (k : Int) = f + ((k : Int) + 1) by omega]

theorem stamp_map_ID (f : Int) (l : List Event) :
    (stamp f l).map Event.ID = (List.range l.length).map (fun (i : Nat) => f + (i : Int)) := by
  apply List.ext_getElem?
  intro k
  rw [List.getElem?_map, stamp_getElem?, List.getElem?_map]
  by_cases hk : k < l.length
  · simp [List.getElem?_range hk, List.getElem?_eq_getElem hk, withID]
  · have h1 : l[k]? = none := List.getElem?_eq_none (not_lt.mp hk)
    have h2 : (List.range l.length)[k]? = none :=
      List.getElem?_eq_none (by rw [List.length_range]; exact not_lt.mp hk)
    simp [h1, h2]

theorem scanByID_stamp (id f : Int) (l : List Event) :
    scanByID id (stamp f l) =
      if f ≤ id ∧ id < f + l.length then (l[(id - f).toNat]?).map (fun d => withID d id)
      else none := by
  induction l generalizing f with
  | nil =>
    simp only [stamp, scanByID, List.length_nil]
    split_ifs with h
    · exfalso; push_cast at h; omega
    · rfl
  | cons d l ih =>
    simp only [stamp, scanByID, List.length_cons]
    by_cases h : f = id
    · subst h
      have : (withID d f).ID = f := rfl
      simp [this]
    · have h1 : ¬ (withID d f).ID = id := h
      rw [if_neg h1, ih]
      push_cast
      by_cases h2 : f + 1 ≤ id ∧ id < f + 1 + (l.length : Int)
      · have h3 : f ≤ id ∧ id < f + ((l.length : Int) + 1) := by omega
        rw [if_pos h2, if_pos h3]
        have : (id - f).toNat = (id - (f + 1)).toNat + 1 := by omega
        rw [this, List.getElem?_cons_succ]
      · have h3 : ¬ (f ≤ id ∧ id < f + ((l.length : Int) + 1)) := by omega
        rw [if_neg h2, if_neg h3]

theorem storeAfter_events (s : Store) (ds : List Event) (h0 : 0 ≤ s.maxLen)
    (hlen : s.events.length ≤ s.maxLen.toNat) (hlo : minInt ≤ s.nextID)
    (hb : s.nextID + ds.length ≤ maxInt + 1) :
    (storeAfter s ds).events = keepLast s.maxLen.toNat (s.events ++ stamp s.nextID ds) := by
  induction ds generalizing s with
  | nil => simp [storeAfter_nil, stamp, keepLast_of_le _ _ hlen]
  | cons d ds ih =>
    rw [List.length_cons] at hb
    push_cast at hb
    rw [storeAfter_cons]
    have hA := Add_of_nonneg s d h0
    have hm : (Add s d).1.maxLen = s.maxLen := Add_maxLen s d
    have he : (Add s d).1.events = keepLast s.maxLen.toNat (s.events ++ [withID d s.nextID]) := by
      rw [hA]
    have hn : (Add s d).1.nextID = wrapInt (s.nextID + 1) := Add_nextID s d
    cases ds with
    | nil =>
      rw [storeAfter_nil, he]
      rfl
    | cons d2 ds2 =>
      rw [List.length_cons] at hb
      push_cast at hb
      have hw : (Add s d).1.nextID = s.nextID + 1 := by
        rw [hn, wrapInt_of_range _ (by omega) (by have := Int.ofNat_nonneg ds2.length; omega)]
      rw [ih (Add s d).1 (by rw [hm]; exact h0)
        (by rw [hm, he, keepLast_length]; exact Nat.min_le_right _ _)
        (by rw [hw]; omega)
        (by rw [hw, List.length_cons]; push_cast; omega)]
      rw [hm, he, hw, keepLast_append]
      simp [stamp]

theorem returnsOf_eq (s : Store) (ds : List Event) (h0 : 0 ≤ s.maxLen)
    (hlo : minInt ≤ s.nextID) (hb : s.nextID + ds.length ≤ maxInt + 1) :
    returnsOf s ds = (stamp s.nextID ds).map some := by
  induction ds generalizing s with
  | nil => rfl
  | cons d ds ih =>
    rw [List.length_cons] at hb
    push_cast at hb
    have hA := Add_of_nonneg s d h0
    have hm : (Add s d).1.maxLen = s.maxLen := Add_maxLen s d
    have hn : (Add s d).1.nextID = wrapInt (s.nextID + 1) := Add_nextID s d
    have hr : (Add s d).2 = some (withID d s.nextID) := by rw [hA]
    rw [returnsOf_cons, hr]
    cases ds with
    | nil => rfl
    | cons d2 ds2 =>
      rw [List.length_cons] at hb
      push_cast at hb
      have hw : (Add s d).1.nextID = s.nextID + 1 := by
        rw [hn, wrapInt_of_range _ (by omega) (by have := Int.ofNat_nonneg ds2.length; omega)]
      rw [ih (Add s d).1 (by rw [hm]; exact h0) (by rw [hw]; omega)
        (by rw [hw, List.length_cons]; push_cast; omega), hw]
      rfl

/-- The retained events of a store built by `NewStore` and filled by `Add` calls: the
last `min N maxLen` drafts, stamped with the identifiers that end at `N`. -/
theorem events_of_NewStore (maxLen : Int) (ds : List Event) (h0 : 0 ≤ maxLen)
    (hb : (ds.length : Int) ≤ maxInt) :
    (storeAfter (NewStore maxLen) ds).events =
      stamp ((ds.length - min ds.length maxLen.toNat : Nat) + 1)
        (ds.drop (ds.length - min ds.length maxLen.toNat)) := by
  have h := storeAfter_events (NewStore maxLen) ds h0 (Nat.zero_le _)
    (by unfold minInt NewStore; simp) (by unfold NewStore; simp only; omega)
  rw [h]
  simp only [NewStore, List.nil_append]
  unfold keepLast
  rw [stamp_length, stamp_drop]
  have e : ds.length - min ds.length maxLen.toNat = ds.length - maxLen.toNat := by omega
  rw [e, add_comm]

theorem GetByID_of_NewStore (maxLen : Int) (ds : List Event) (id : Int) (h0 : 0 ≤ maxLen)
    (hb : (ds.length : Int) ≤ maxInt) :
    GetByID (storeAfter (NewStore maxLen) ds) id =
      if max 1 ((ds.length : Int) - maxLen + 1) ≤ id ∧ id ≤ ds.length then
        (ds[(id - 1).toNat]?).map (fun d => withID d id)
      else none := by
  unfold GetByID
  rw [events_of_NewStore maxLen ds h0 hb, scanByID_stamp, List.length_drop]
  by_cases hin : max 1 ((ds.length : Int) - maxLen + 1) ≤ id ∧ id ≤ ds.length
  · rw [if_pos hin, if_pos (by omega), List.getElem?_drop]
    congr 2
    omega
  · rw [if_neg hin, if_neg (by omega)]

theorem returnsOf_ne_none (s : Store) (ds : List Event) (h0 : 0 ≤ s.maxLen) :
    ∀ r ∈ returnsOf s ds, r ≠ none := by
  induction ds generalizing s with
  | nil => intro r hr; simp [returnsOf_nil] at hr
  | cons d ds ih =>
    intro r hr
    rw [returnsOf_cons, List.mem_cons] at hr
    rcases hr with hr | hr
    · rw [hr, Add_of_nonneg s d h0]
      simp
    · exact ih (Add s d).1 (by rw [Add_maxLen]; exact h0) r hr

theorem Add_panics_iff (s : Store) (e : Event) :
    (Add s e).2 = none ↔
      ((s.events.length : Int) + 1 > s.maxLen ∧
        ¬ (0 ≤ (s.events.length : Int) + 1 - s.maxLen ∧
            (s.events.length : Int) + 1 - s.maxLen ≤ (s.events.length : Int) + 1)) := by
  unfold Add
  simp only [List.length_append, List.length_singleton]
  push_cast
  split_ifs with h1 h2
  · simp only [reduceCtorEq, false_iff]
    intro hc
    exact hc.2 h2
  · simp only [true_iff]
    exact ⟨h1, h2⟩
  · simp only [reduceCtorEq, false_iff]
    intro hc
    exact h1 hc.1

theorem keepLast_snoc {α : Type} (m : Nat) (l : List α) (x : α) (hm : 1 ≤ m) :
    keepLast m (l ++ [x]) = keepLast (m - 1) l ++ [x] := by
  unfold keepLast
  rw [List.length_append, List.length_singleton,
    List.drop_append_of_le_length (by omega)]
  congr 2
  omega

theorem Split_head (s : GoString) (sep : UInt8) :
    ∃ rest, Split s sep = s.takeWhile (fun c => c ≠ sep) :: rest := by
  induction s with
  | nil => exact ⟨[], rfl⟩
  | cons c cs ih =>
    obtain ⟨rest, hr⟩ := ih
    unfold Split
    by_cases hc : c = sep
    · refine ⟨Split cs sep, ?_⟩
      simp [hc]
    · refine ⟨rest, ?_⟩
      rw [if_neg hc, hr]
      simp [List.takeWhile, hc]

theorem Atoi_nil : Atoi [] = none := rfl

/-- What `eventByIDHandler` answers to a `GET`, by the first segment after `/events/`. -/
theorem eventByIDHandler_GET (store : Store) (r : Request) (hm : r.Method = ascii "GET") :
    eventByIDHandler store r =
      if idSegment r.Path = [] then { status := 400, body := .text "ID não informado" }
      else
        match Atoi (idSegment r.Path) with
        | none => { status := 400, body := .text "ID inválido" }
        | some id =>
          match GetByID store id with
          | none => { status := 404, body := .text "Evento não encontrado" }
          | some ev => { status := 200, body := .event ev } := by
  obtain ⟨rest, hr⟩ := Split_head (TrimPrefix r.Path (ascii "/events/")) 47
  unfold eventByIDHandler idSegment
  rw [if_neg (by simp [hm]), hr]

theorem hookHandler_allowed (store : Store) (r : Request) (now : Time) (b : GoString)
    (hm : allowedMethod r.Method) (hb : r.Body = some b) (h0 : 0 ≤ store.maxLen) :
    hookHandler store r now =
      ((Add store (draftOf r b now)).1,
        some { status := 201, body := .event (withID (draftOf r b now) store.nextID) }) := by
  have hn : ¬ (r.Method ≠ ascii "POST" ∧ r.Method ≠ ascii "PUT" ∧ r.Method ≠ ascii "PATCH") := by
    unfold allowedMethod at hm
    tauto
  unfold hookHandler
  rw [if_neg hn, hb]
  simp only
  rw [Add_of_nonneg store _ h0]

/-! ## Lemmas on `Atoi` -/

theorem digitsValue_eq_some_iff (acc : Nat) (s : GoString) (n : Nat) :
    digitsValue acc s = some n ↔
      (∀ c ∈ s, 48 ≤ c.toNat ∧ c.toNat ≤ 57) ∧
        n = s.foldl (fun a c => a * 10 + (c.toNat - 48)) acc := by
  induction s generalizing acc with
  | nil => simp [digitsValue, eq_comm]
  | cons c cs ih =>
    unfold digitsValue
    by_cases hc : 48 ≤ c.toNat ∧ c.toNat ≤ 57
    · rw [if_pos hc, ih]
      simp [hc]
    · rw [if_neg hc]
      simp only [List.mem_cons, forall_eq_or_imp, false_iff, reduceCtorEq]
      intro h
      exact hc h.1.1

theorem Atoi_core (neg : Bool) (body : GoString) (n : Int) (hb : body ≠ []) :
    (match digitsValue 0 body with
      | none => none
      | some m =>
        if minInt ≤ (if neg then -(m : Int) else (m : Int)) ∧
            (if neg then -(m : Int) else (m : Int)) ≤ maxInt
        then some (if neg then -(m : Int) else (m : Int)) else none) = some n ↔
      isDecimal body ∧ minInt ≤ n ∧ n ≤ maxInt ∧
        n = (if neg then -(decimalValue body : Int) else (decimalValue body : Int)) := by
  cases hd : digitsValue 0 body with
  | none =>
    simp only [reduceCtorEq, false_iff]
    rintro ⟨⟨_, hdig⟩, _⟩
    have := (digitsValue_eq_some_iff 0 body _).mpr ⟨hdig, rfl⟩
    rw [hd] at this
    exact Option.noConfusion this
  | some m =>
    obtain ⟨hdig, hm⟩ := (digitsValue_eq_some_iff 0 body m).mp hd
    have hm2 : m = decimalValue body := hm
    simp only
    rw [← hm2]
    generalize (if neg then -(m : Int) else (m : Int)) = v
    constructor
    · intro h
      split_ifs at h with hr
      have hn := Option.some.inj h
      rw [← hn]
      exact ⟨⟨hb, hdig⟩, hr.1, hr.2, rfl⟩
    · rintro ⟨_, h1, h2, h3⟩
      rw [← h3, if_pos ⟨h1, h2⟩]

/-- What `Atoi` accepts: an optional sign and a non-empty run of decimal digits whose
signed value lies in the range of `int`; the result is that value. -/
theorem Atoi_eq_some_iff (s : GoString) (n : Int) :
    Atoi s = some n ↔
      ∃ body, isDecimal body ∧ minInt ≤ n ∧ n ≤ maxInt ∧
        ((s = body ∧ n = decimalValue body) ∨ (s = 43 :: body ∧ n = decimalValue body) ∨
          (s = 45 :: body ∧ n = -(decimalValue body : Int))) := by
  cases s with
  | nil =>
    constructor
    · intro h
      exact Option.noConfusion h
    · rintro ⟨body, ⟨hne, _⟩, _, _, h | h | h⟩
      · exact absurd h.1.symm hne
      · exact List.noConfusion h.1
      · exact List.noConfusion h.1
  | cons c r =>
    by_cases h45 : c = 45
    · subst h45
      by_cases hr : r = []
      · subst hr
        constructor
        · intro h
          exact Option.noConfusion h
        · rintro ⟨body, ⟨hne, hdig⟩, _, _, h | h | h⟩
          · have := hdig 45 (by rw [← h.1]; exact List.mem_cons_self _ _)
            exact absurd this (by decide)
          · have := (List.cons.inj h.1).1
            exact absurd this (by decide)
          · exact absurd (List.cons.inj h.1).2.symm hne
      · have hA : Atoi (45 :: r) = (match digitsValue 0 r with
            | none => none
            | some m =>
              if minInt ≤ (if true then -(m : Int) else (m : Int)) ∧
                  (if true then -(m : Int) else (m : Int)) ≤ maxInt
              then some (if true then -(m : Int) else (m : Int)) else none) := by
          simp [Atoi, hr]
        rw [hA, Atoi_core true r n hr]
        constructor
        · rintro ⟨h1, h2, h3, h4⟩
          exact ⟨r, h1, h2, h3, Or.inr (Or.inr ⟨rfl, by simpa using h4⟩)⟩
        · rintro ⟨body, ⟨hne, hdig⟩, h2, h3, h | h | h⟩
          · have := hdig 45 (by rw [← h.1]; exact List.mem_cons_self _ _)
            exact absurd this (by decide)
          · have := (List.cons.inj h.1).1
            exact absurd this (by decide)
          · have hb := (List.cons.inj h.1).2
            subst hb
            exact ⟨⟨hne, hdig⟩, h2, h3, by simpa using h.2⟩
    · by_cases h43 : c = 43
      · subst h43
        by_cases hr : r = []
        · subst hr
          constructor
          · intro h
            exact Option.noConfusion h
          · rintro ⟨body, ⟨hne, hdig⟩, _, _, h | h | h⟩
            · have := hdig 43 (by rw [← h.1]; exact List.mem_cons_self _ _)
              exact absurd this (by decide)
            · exact absurd (List.cons.inj h.1).2.symm hne
            · have := (List.cons.inj h.1).1
              exact absurd this (by decide)
        · have hA : Atoi (43 :: r) = (match digitsValue 0 r with
              | none => none
              | some m =>
                if minInt ≤ (if false then -(m : Int) else (m : Int)) ∧
                    (if false then -(m : Int) else (m : Int)) ≤ maxInt
                then some (if false then -(m : Int) else (m : Int)) else none) := by
            simp [Atoi, hr]
          rw [hA, Atoi_core false r n hr]
          constructor
          · rintro ⟨h1, h2, h3, h4⟩
            exact ⟨r, h1, h2, h3, Or.inr (Or.inl ⟨rfl, by simpa using h4⟩)⟩
          · rintro ⟨body, ⟨hne, hdig⟩, h2, h3, h | h | h⟩
            · have := hdig 43 (by rw [← h.1]; exact List.mem_cons_self _ _)
              exact absurd this (by decide)
            · have hb := (List.cons.inj h.1).2
              subst hb
              exact ⟨⟨hne, hdig⟩, h2, h3, by simpa using h.2⟩
            · have := (List.cons.inj h.1).1
              exact absurd this (by decide)
      · have hA : Atoi (c :: r) = (match digitsValue 0 (c :: r) with
            | none => none
            | some m =>
              if minInt ≤ (if false then -(m : Int) else (m : Int)) ∧
                  (if false then -(m : Int) else (m : Int)) ≤ maxInt
              then some (if false then -(m : Int) else (m : Int)) else none) := by
          simp [Atoi, h45, h43]
        rw [hA, Atoi_core false (c :: r) n (List.cons_ne_nil _ _)]
        constructor
        · rintro ⟨h1, h2, h3, h4⟩
          exact ⟨c :: r, h1, h2, h3, Or.inl ⟨rfl, by simpa using h4⟩⟩
        · rintro ⟨body, ⟨hne, hdig⟩, h2, h3, h | h | h⟩
          · have hb := h.1
            subst hb
            exact ⟨⟨hne, hdig⟩, h2, h3, by simpa using h.2⟩
          · exact absurd (List.cons.inj h.1).1 h43
          · exact absurd (List.cons.inj h.1).1 h45

/-! ## The claims -/

/-- C1: for `maxLen ≥ 1` and `N` drafts added in order to `NewStore(maxLen)` (`N` within
the range of `int`), `All()` is exactly the last `min(N, maxLen)` drafts, oldest first,
each carrying its assigned identifier, and the identifiers are the consecutive integers
`max(1, N-maxLen+1) .. N`. -/
theorem C1_All_is_last_drafts (maxLen : Int) (ds : List Event) (h : 1 ≤ maxLen)
    (hN : (ds.length : Int) ≤ maxInt) :
    All (storeAfter (NewStore maxLen) ds) =
        stamp (max 1 ((ds.length : Int) - maxLen + 1))
          (ds.drop (ds.length - min ds.length maxLen.toNat)) ∧
      (All (storeAfter (NewStore maxLen) ds)).length = min ds.length maxLen.toNat ∧
      (All (storeAfter (NewStore maxLen) ds)).map Event.ID =
        (List.range (min ds.length maxLen.toNat)).map
          (fun (i : Nat) => max 1 ((ds.length : Int) - maxLen + 1) + (i : Int)) := by
  have hf : (((ds.length - min ds.length maxLen.toNat : Nat) : Int) + 1) =
      max 1 ((ds.length : Int) - maxLen + 1) := by omega
  have hl : (ds.drop (ds.length - min ds.length maxLen.toNat)).length =
      min ds.length maxLen.toNat := by
    rw [List.length_drop]; omega
  have he : All (storeAfter (NewStore maxLen) ds) =
      stamp (max 1 ((ds.length : Int) - maxLen + 1))
        (ds.drop (ds.length - min ds.length maxLen.toNat)) := by
    unfold All
    rw [events_of_NewStore maxLen ds (by omega) hN, hf]
  refine ⟨he, ?_, ?_⟩
  · rw [he, stamp_length, hl]
  · rw [he, stamp_map_ID, hl]

/-- C2: on the store reached from `NewStore(maxLen)`, `maxLen ≥ 1`, by `N` calls of `Add`
(`N` within the range of `int`), `GetByID(id)` finds an event, the draft number `id`
carrying `ID == id`, exactly when `max(1, N-maxLen+1) ≤ id ≤ N`, and is not-found for
every other integer. -/
theorem C2_GetByID_found_iff_retained (maxLen : Int) (ds : List Event) (id : Int)
    (h : 1 ≤ maxLen) (hN : (ds.length : Int) ≤ maxInt) :
    (max 1 ((ds.length : Int) - maxLen + 1) ≤ id ∧ id ≤ ds.length →
        ∃ d ev, ds[(id - 1).toNat]? = some d ∧ ev = withID d id ∧ ev.ID = id ∧
          GetByID (storeAfter (NewStore maxLen) ds) id = some ev) ∧
      (¬ (max 1 ((ds.length : Int) - maxLen + 1) ≤ id ∧ id ≤ ds.length) →
        GetByID (storeAfter (NewStore maxLen) ds) id = none) := by
  have hg := GetByID_of_NewStore maxLen ds id (by omega) hN
  constructor
  · intro hin
    rw [if_pos hin] at hg
    have hlt : (id - 1).toNat < ds.length := by omega
    refine ⟨ds[(id - 1).toNat], withID ds[(id - 1).toNat] id, ?_, rfl, rfl, ?_⟩
    · exact List.getElem?_eq_getElem hlt
    · rw [hg, List.getElem?_eq_getElem hlt]
      rfl
  · intro hout
    rw [if_neg hout] at hg
    exact hg

/-- C3 (as stated, refuted): with `maxLen = -1` the first `Add` panics in the slice
expression and returns no event, while `nextID` has still moved to 2. -/
theorem C3_counterexample_negative_maxLen :
    returnsOf (NewStore (-1)) [draft "POST" "A" 0] = [none] ∧
      (storeAfter (NewStore (-1)) [draft "POST" "A" 0]).nextID = 2 := by decide

/-- C3 (amended): for every `maxLen` and every sequence of `N` calls of `Add` on
`NewStore(maxLen)`, `N` below the largest `int`, `nextID` is `N+1` afterwards; and when
`maxLen ≥ 0` the `k`-th call returns the `k`-th draft with `ID == k`, whatever `ID` the
draft carried and however many events were evicted. -/
theorem C3_ids_follow_insertion_order (maxLen : Int) (ds : List Event)
    (hN : (ds.length : Int) < maxInt) :
    (storeAfter (NewStore maxLen) ds).nextID = (ds.length : Int) + 1 ∧
      (0 ≤ maxLen → ∀ (k : Nat) (hk : k < ds.length),
        (returnsOf (NewStore maxLen) ds)[k]? = some (some (withID ds[k] ((k : Int) + 1))) ∧
        (withID ds[k] ((k : Int) + 1)).ID = (k : Int) + 1) := by
  constructor
  · rw [storeAfter_nextID (NewStore maxLen) ds (by unfold minInt NewStore; simp)
      (by unfold NewStore; simp only; omega)]
    simp only [NewStore]
    omega
  · intro h0 k hk
    refine ⟨?_, rfl⟩
    rw [returnsOf_eq (NewStore maxLen) ds h0 (by unfold minInt NewStore; simp)
      (by unfold NewStore; simp only; omega)]
    rw [List.getElem?_map, stamp_getElem?, List.getElem?_eq_getElem hk]
    simp only [NewStore, Option.map_some']
    rw [add_comm]

/-- C4 (as stated, refuted): two drafts that differ only in `CreatedAt` come back from
`Add`, and are stored, with their own differing `CreatedAt`; `Add` takes the timestamp
from the caller. -/
theorem C4_counterexample_timestamp_from_draft :
    (Add (NewStore 100) (draft "POST" "A" 5)).2.map Event.CreatedAt = some 5 ∧
      (Add (NewStore 100) (draft "POST" "A" 9)).2.map Event.CreatedAt = some 9 ∧
      (All (Add (NewStore 100) (draft "POST" "A" 9)).1).map Event.CreatedAt = [9] := by
  decide

/-- C4 (amended): `Add` leaves `CreatedAt` as the draft carries it, in the event it
returns and in the event it stores; the timestamp is the `time.Now()` that `hookHandler`
takes when it builds the draft, before it calls `Add`. -/
theorem C4_CreatedAt_comes_from_caller (s : Store) (e : Event) (h : 1 ≤ s.maxLen) :
    (∃ ev, (Add s e).2 = some ev ∧ ev.CreatedAt = e.CreatedAt ∧
        (Add s e).1.events.getLast? = some ev) ∧
      (∀ (r : Request) (b : GoString) (now : Time), allowedMethod r.Method →
        r.Body = some b →
        ∃ ev, (hookHandler s r now).2 = some { status := 201, body := .event ev } ∧
          ev.CreatedAt = now) := by
  constructor
  · refine ⟨withID e s.nextID, ?_, rfl, ?_⟩
    · rw [Add_of_nonneg s e (by omega)]
    · rw [Add_of_nonneg s e (by omega)]
      simp only
      rw [keepLast_snoc _ _ _ (by omega), List.getLast?_append]
      rfl
  · intro r b now hm hb
    refine ⟨withID (draftOf r b now) s.nextID, ?_, rfl⟩
    rw [hookHandler_allowed s r now b hm hb (by omega)]

/-- C5: on a store reached from `NewStore(maxLen)`, `maxLen ≥ 1`, by `N` calls of `Add`
(`N` below the largest `int`), `Add(e)` returns an event with the method, path, headers,
body, remote address (and timestamp) of `e`, and `GetByID` of the returned identifier
right afterwards finds that same event. -/
theorem C5_Add_then_GetByID (maxLen : Int) (ds : List Event) (e : Event) (h : 1 ≤ maxLen)
    (hN : (ds.length : Int) < maxInt) :
    ∃ ev, (Add (storeAfter (NewStore maxLen) ds) e).2 = some ev ∧
      ev.Method = e.Method ∧ ev.Path = e.Path ∧ ev.Headers = e.Headers ∧
      ev.Body = e.Body ∧ ev.RemoteIP = e.RemoteIP ∧ ev.CreatedAt = e.CreatedAt ∧
      GetByID (Add (storeAfter (NewStore maxLen) ds) e).1 ev.ID = some ev := by
  have hm : (storeAfter (NewStore maxLen) ds).maxLen = maxLen := storeAfter_maxLen _ _
  have hn : (storeAfter (NewStore maxLen) ds).nextID = (ds.length : Int) + 1 := by
    rw [storeAfter_nextID (NewStore maxLen) ds (by unfold minInt NewStore; simp)
      (by unfold NewStore; simp only; omega)]
    simp only [NewStore]
    omega
  have hs : (Add (storeAfter (NewStore maxLen) ds) e).1 =
      storeAfter (NewStore maxLen) (ds ++ [e]) := by
    rw [storeAfter_append]
    rfl
  refine ⟨withID e ((ds.length : Int) + 1), ?_, rfl, rfl, rfl, rfl, rfl, rfl, ?_⟩
  · rw [Add_of_nonneg _ e (by rw [hm]; omega), hn]
  · have hlen : ((ds ++ [e]).length : Int) = (ds.length : Int) + 1 := by
      rw [List.length_append, List.length_singleton]
      push_cast
      rfl
    rw [hs, GetByID_of_NewStore maxLen (ds ++ [e]) _ (by omega) (by rw [hlen]; omega)]
    have hid : (withID e ((ds.length : Int) + 1)).ID = (ds.length : Int) + 1 := rfl
    rw [hid, hlen, if_pos (by omega)]
    have hidx : ((ds.length : Int) + 1 - 1).toNat = ds.length := by omega
    rw [hidx, List.getElem?_append_right (le_refl _)]
    simp

/-- C6: on every store built by `NewStore(maxLen)` with `maxLen ≥ 1` and any sequence of
`Add` calls, every call returns (none panics), and whenever the trim branch is taken
the lower bound `len(events) - maxLen` of the slice expression lies in `0..len(events)`. -/
theorem C6_Add_never_panics (maxLen : Int) (ds : List Event) (e : Event) (h : 1 ≤ maxLen) :
    (∀ r ∈ returnsOf (NewStore maxLen) ds, r ≠ none) ∧
      (Add (storeAfter (NewStore maxLen) ds) e).2 = some
        (withID e (storeAfter (NewStore maxLen) ds).nextID) ∧
      (((storeAfter (NewStore maxLen) ds).events.length : Int) + 1 >
          (storeAfter (NewStore maxLen) ds).maxLen →
        0 ≤ ((storeAfter (NewStore maxLen) ds).events.length : Int) + 1 -
            (storeAfter (NewStore maxLen) ds).maxLen ∧
          ((storeAfter (NewStore maxLen) ds).events.length : Int) + 1 -
            (storeAfter (NewStore maxLen) ds).maxLen ≤
            ((storeAfter (NewStore maxLen) ds).events.length : Int) + 1) := by
  have hm : (storeAfter (NewStore maxLen) ds).maxLen = maxLen := storeAfter_maxLen _ _
  refine ⟨returnsOf_ne_none (NewStore maxLen) ds (by unfold NewStore; simp only; omega), ?_, ?_⟩
  · rw [Add_of_nonneg _ e (by rw [hm]; omega)]
  · intro _
    rw [hm]
    omega

/-- C10: for every store state with `maxLen ≥ 0`, reachable or not, after `Add(e)` the
stored sequence has length `min(len+1, maxLen) ≤ maxLen` and is exactly the suffix of
that length of the old events followed by `e` with its new identifier. -/
theorem C10_trim_keeps_suffix (s : Store) (e : Event) (h : 0 ≤ s.maxLen) :
    (Add s e).1.events.length = min (s.events.length + 1) s.maxLen.toNat ∧
      ((Add s e).1.events.length : Int) ≤ s.maxLen ∧
      (Add s e).1.events =
        (s.events ++ [withID e s.nextID]).drop
          ((s.events ++ [withID e s.nextID]).length -
            min (s.events.length + 1) s.maxLen.toNat) ∧
      (Add s e).1.events <:+ s.events ++ [withID e s.nextID] := by
  have he : (Add s e).1.events = keepLast s.maxLen.toNat (s.events ++ [withID e s.nextID]) := by
    rw [Add_of_nonneg s e h]
  have hl : (Add s e).1.events.length = min (s.events.length + 1) s.maxLen.toNat := by
    rw [he, keepLast_length, List.length_append, List.length_singleton]
  refine ⟨hl, ?_, ?_, ?_⟩
  · rw [hl]
    omega
  · rw [he]
    unfold keepLast
    congr 1
    rw [List.length_append, List.length_singleton]
    omega
  · rw [he]
    exact List.drop_suffix _ _

/-- C7 (as stated, refuted): for `GET /events/1/x` the remainder after `/events/` is
`1/x`, which is not an integer, yet the handler answers 200 with event 1; and for
`GET /events/9223372036854775808` the remainder is an integer that matches no stored
event, yet the handler answers 400. -/
theorem C7_counterexample_remainder_not_integer :
    Atoi (TrimPrefix (getRequest "/events/1/x").Path (ascii "/events/")) = none ∧
      (eventByIDHandler (storeAfter (NewStore 100) [draft "POST" "A" 0])
        (getRequest "/events/1/x")).status = 200 ∧
      GetByID (storeAfter (NewStore 100) [draft "POST" "A" 0]) 9223372036854775808 = none ∧
      (eventByIDHandler (storeAfter (NewStore 100) [draft "POST" "A" 0])
        (getRequest "/events/9223372036854775808")).status = 400 := by
  decide

/-- C7 (amended): for a `GET`, the id is read from the first `/`-separated segment of the
path remainder after `/events/`: the status is 400 when that segment is empty or
`strconv.Atoi` rejects it (not a decimal integer, or outside the range of `int`), 404
when it parses to an integer that `GetByID` does not find, and 200 with exactly the
event `GetByID` returns otherwise; for every other method the status is 405. -/
theorem C7_eventByIDHandler_by_first_segment (store : Store) (r : Request) :
    (r.Method ≠ ascii "GET" → (eventByIDHandler store r).status = 405) ∧
      (r.Method = ascii "GET" →
        (idSegment r.Path = [] ∨ Atoi (idSegment r.Path) = none →
          (eventByIDHandler store r).status = 400) ∧
        (∀ id, Atoi (idSegment r.Path) = some id → GetByID store id = none →
          (eventByIDHandler store r).status = 404) ∧
        (∀ id ev, Atoi (idSegment r.Path) = some id → GetByID store id = some ev →
          eventByIDHandler store r = { status := 200, body := .event ev })) := by
  constructor
  · intro hm
    unfold eventByIDHandler
    rw [if_pos hm]
  · intro hm
    have hg := eventByIDHandler_GET store r hm
    refine ⟨?_, ?_, ?_⟩
    · intro hbad
      rw [hg]
      by_cases he : idSegment r.Path = []
      · rw [if_pos he]
      · rw [if_neg he]
        rcases hbad with hbad | hbad
        · exact absurd hbad he
        · rw [hbad]
    · intro id hid hnone
      have he : idSegment r.Path ≠ [] := by
        intro he
        rw [he, Atoi_nil] at hid
        exact Option.noConfusion hid
      rw [hg, if_neg he, hid]
      simp only
      rw [hnone]
    · intro id ev hid hsome
      have he : idSegment r.Path ≠ [] := by
        intro he
        rw [he, Atoi_nil] at hid
        exact Option.noConfusion hid
      rw [hg, if_neg he, hid]
      simp only
      rw [hsome]

/-- C8: `hookHandler` answers 405 and leaves the store unchanged when the method is not
`POST`, `PUT` or `PATCH`; answers 400 and leaves the store unchanged when the method is
allowed and the body cannot be read; and, when the method is allowed and the body was
read (the store having `maxLen ≥ 0`), answers 201 after exactly one `Add` of the draft,
the response being the event `Add` returned, with the request's method, path, body and
remote address. -/
theorem C8_hookHandler_records_iff_allowed_and_readable (store : Store) (r : Request)
    (now : Time) :
    (¬ allowedMethod r.Method →
        (hookHandler store r now).1 = store ∧
          (hookHandler store r now).2.map Response.status = some 405) ∧
      (allowedMethod r.Method → r.Body = none →
        (hookHandler store r now).1 = store ∧
          (hookHandler store r now).2.map Response.status = some 400) ∧
      (∀ b, allowedMethod r.Method → r.Body = some b → 0 ≤ store.maxLen →
        ∃ ev, (Add store (draftOf r b now)).2 = some ev ∧
          hookHandler store r now =
            ((Add store (draftOf r b now)).1, some { status := 201, body := .event ev }) ∧
          ev.Method = r.Method ∧ ev.Path = r.Path ∧ ev.Body = b ∧
          ev.RemoteIP = r.RemoteAddr) := by
  refine ⟨?_, ?_, ?_⟩
  · intro hm
    have hn : r.Method ≠ ascii "POST" ∧ r.Method ≠ ascii "PUT" ∧ r.Method ≠ ascii "PATCH" := by
      unfold allowedMethod at hm
      tauto
    unfold hookHandler
    rw [if_pos hn]
    exact ⟨rfl, rfl⟩
  · intro hm hb
    have hn : ¬ (r.Method ≠ ascii "POST" ∧ r.Method ≠ ascii "PUT" ∧
        r.Method ≠ ascii "PATCH") := by
      unfold allowedMethod at hm
      tauto
    unfold hookHandler
    rw [if_neg hn, hb]
    exact ⟨rfl, rfl⟩
  · intro b hm hb h0
    refine ⟨withID (draftOf r b now) store.nextID, ?_, ?_, rfl, rfl, rfl, rfl⟩
    · rw [Add_of_nonneg store _ h0]
    · exact hookHandler_allowed store r now b hm hb h0

/-! ## The claims at concrete inputs -/

/-- C1 at capacity 3 with the five drafts A..E: `All()` is C, D, E with ids 3, 4, 5. -/
theorem C1_witness_capacity_three :
    All (storeAfter (NewStore 3) draftsAE) = stamp 3 (draftsAE.drop 2) ∧
      (All (storeAfter (NewStore 3) draftsAE)).map Event.ID = [3, 4, 5] := by
  have h := C1_All_is_last_drafts 3 draftsAE (by decide) (by decide)
  exact ⟨h.1, by decide⟩

/-- C2 at capacity 3 with the five drafts A..E: id 4 is found; the evicted id 2, the never assigned id 6, zero and a negative id are not. -/
theorem C2_witness_capacity_three :
    (∃ d ev, draftsAE[3]? = some d ∧ ev = withID d 4 ∧ ev.ID = 4 ∧
        GetByID (storeAfter (NewStore 3) draftsAE) 4 = some ev) ∧
      GetByID (storeAfter (NewStore 3) draftsAE) 2 = none ∧
      GetByID (storeAfter (NewStore 3) draftsAE) 6 = none ∧
      GetByID (storeAfter (NewStore 3) draftsAE) 0 = none ∧
      GetByID (storeAfter (NewStore 3) draftsAE) (-1) = none :=
  ⟨(C2_GetByID_found_iff_retained 3 draftsAE 4 (by decide) (by decide)).1 (by decide),
   (C2_GetByID_found_iff_retained 3 draftsAE 2 (by decide) (by decide)).2 (by decide),
   (C2_GetByID_found_iff_retained 3 draftsAE 6 (by decide) (by decide)).2 (by decide),
   (C2_GetByID_found_iff_retained 3 draftsAE 0 (by decide) (by decide)).2 (by decide),
   (C2_GetByID_found_iff_retained 3 draftsAE (-1) (by decide) (by decide)).2 (by decide)⟩

/-- C3 (amended) at capacity 3 with the five drafts A..E: `nextID` is 6 and the fifth call returned E with id 5. -/
theorem C3_witness_capacity_three :
    (storeAfter (NewStore 3) draftsAE).nextID = 6 ∧
      (returnsOf (NewStore 3) draftsAE)[4]? = some (some (withID (draft "POST" "E" 0) 5)) :=
  ⟨(C3_ids_follow_insertion_order 3 draftsAE (by decide)).1,
   ((C3_ids_follow_insertion_order 3 draftsAE (by decide)).2 (by decide) 4 (by decide)).1⟩

/-- C4 (amended) at the `curl` request handled at instant 1234: the recorded event carries 1234. -/
theorem C4_witness_curl :
    ∃ ev, (hookHandler (NewStore 100) curlRequest 1234).2 =
        some { status := 201, body := .event ev } ∧ ev.CreatedAt = 1234 :=
  (C4_CreatedAt_comes_from_caller (NewStore 100) (draft "POST" "A" 5) (by decide)).2
    curlRequest curlBody 1234 (by decide) (by decide)

/-- C5 at capacity 100 with the `curl` draft as the first insert. -/
theorem C5_witness_curl :
    ∃ ev, (Add (storeAfter (NewStore 100) []) curlDraft).2 = some ev ∧
      ev.Method = curlDraft.Method ∧ ev.Path = curlDraft.Path ∧
      ev.Headers = curlDraft.Headers ∧ ev.Body = curlDraft.Body ∧
      ev.RemoteIP = curlDraft.RemoteIP ∧ ev.CreatedAt = curlDraft.CreatedAt ∧
      GetByID (Add (storeAfter (NewStore 100) []) curlDraft).1 ev.ID = some ev :=
  C5_Add_then_GetByID 100 [] curlDraft (by decide) (by decide)

/-- C6 at capacity 3: none of the five inserts panics, nor does a sixth. -/
theorem C6_witness_capacity_three :
    (∀ r ∈ returnsOf (NewStore 3) draftsAE, r ≠ none) ∧
      (Add (storeAfter (NewStore 3) draftsAE) (draft "PUT" "F" 0)).2 =
        some (withID (draft "PUT" "F" 0) 6) := by
  have h := C6_Add_never_panics 3 draftsAE (draft "PUT" "F" 0) (by decide)
  have hn : (storeAfter (NewStore 3) draftsAE).nextID = 6 := by
    set_option maxRecDepth 4096 in decide
  refine ⟨h.1, ?_⟩
  rw [h.2.1, hn]

/-- C7 (amended) on the capacity-3 store holding ids 3, 4, 5: a `POST`, a missing id, a non-numeric id, an evicted id and a retained id. -/
theorem C7_witness_requests :
    (eventByIDHandler (storeAfter (NewStore 3) draftsAE)
        { getRequest "/events/4" with Method := ascii "POST" }).status = 405 ∧
      (eventByIDHandler (storeAfter (NewStore 3) draftsAE) (getRequest "/events/")).status
        = 400 ∧
      (eventByIDHandler (storeAfter (NewStore 3) draftsAE) (getRequest "/events/abc")).status
        = 400 ∧
      (eventByIDHandler (storeAfter (NewStore 3) draftsAE) (getRequest "/events/2")).status
        = 404 ∧
      eventByIDHandler (storeAfter (NewStore 3) draftsAE) (getRequest "/events/4") =
        { status := 200, body := .event (withID (draft "POST" "D" 0) 4) } :=
  ⟨(C7_eventByIDHandler_by_first_segment (storeAfter (NewStore 3) draftsAE)
      { getRequest "/events/4" with Method := ascii "POST" }).1 (by decide),
   ((C7_eventByIDHandler_by_first_segment (storeAfter (NewStore 3) draftsAE)
      (getRequest "/events/")).2 (by decide)).1 (Or.inl (by decide)),
   ((C7_eventByIDHandler_by_first_segment (storeAfter (NewStore 3) draftsAE)
      (getRequest "/events/abc")).2 (by decide)).1 (Or.inr (by decide)),
   ((C7_eventByIDHandler_by_first_segment (storeAfter (NewStore 3) draftsAE)
      (getRequest "/events/2")).2 (by decide)).2.1 2 (by decide) (by decide),
   ((C7_eventByIDHandler_by_first_segment (storeAfter (NewStore 3) draftsAE)
      (getRequest "/events/4")).2 (by decide)).2.2 4 _ (by decide) (by decide)⟩

/-- C8 at capacity 100: a `GET` to `/hook`, a `POST` with unreadable body, and the `curl` request. -/
theorem C8_witness_requests :
    ((hookHandler (NewStore 100) (getRequest "/hook") 7).1 = NewStore 100 ∧
        (hookHandler (NewStore 100) (getRequest "/hook") 7).2.map Response.status
          = some 405) ∧
      ((hookHandler (NewStore 100) { curlRequest with Body := none } 7).1 = NewStore 100 ∧
        (hookHandler (NewStore 100) { curlRequest with Body := none } 7).2.map
          Response.status = some 400) ∧
      (∃ ev, (Add (NewStore 100)
            (draftOf curlRequest curlBody 7)).2 = some ev ∧
        hookHandler (NewStore 100) curlRequest 7 =
          ((Add (NewStore 100)
              (draftOf curlRequest curlBody 7)).1,
            some { status := 201, body := .event ev }) ∧
        ev.Method = ascii "POST" ∧ ev.Path = ascii "/hook" ∧
        ev.Body = ascii "\x7b\"foo\":\"bar\"\x7d" ∧
        ev.RemoteIP = ascii "127.0.0.1:5000") :=
  ⟨(C8_hookHandler_records_iff_allowed_and_readable (NewStore 100) (getRequest "/hook") 7).1
      (by decide),
   (C8_hookHandler_records_iff_allowed_and_readable (NewStore 100)
      { curlRequest with Body := none } 7).2.1 (by decide) (by decide),
   (C8_hookHandler_records_iff_allowed_and_readable (NewStore 100) curlRequest 7).2.2
      curlBody (by decide) (by decide) (by decide)⟩

/-- C10 on a store that holds five events with `maxLen = 2`: one `Add` leaves the last two. -/
theorem C10_witness_overfull_store :
    (Add { events := stamp 1 draftsAE, nextID := 6, maxLen := 2 }
        (draft "PUT" "F" 0)).1.events =
      [withID (draft "POST" "E" 0) 5, withID (draft "PUT" "F" 0) 6] := by
  have h := (C10_trim_keeps_suffix { events := stamp 1 draftsAE, nextID := 6, maxLen := 2 }
    (draft "PUT" "F" 0) (by decide)).2.2.1
  rw [h]
  decide

end WebhookInspector
